import Mathlib

/-
Shallow embedding of the libtextclassifier actions-suggestions pipeline
(actions/actions-suggestions.cc), its locale matcher, its annotation
deduplication, the double-array trie prefix matcher
(utils/sentencepiece/double_array_trie.cc) and the reflective flatbuffer
record builder (utils/flatbuffers.h), together with theorems settling the
spec claims about them.

Modelling conventions:
- C++ float scores are modelled as Rat; the claims under study are about
  control flow conditioned on comparisons, not float rounding.
- String length (std::string::size) is the UTF-8 byte size.
- External collaborators (the TFLite executor, the regex engine, the
  ranker, the annotator, zlib) are oracles in an explicit environment
  record, exactly as the spec declares them external; the control flow
  around them is transliterated from the source.
-/

namespace libtextclassifier3

/-! Reflective flatbuffer record builder (utils/flatbuffers.h). -/

/-- Scalar/string field types of the reflection schema (reflection::BaseType,
restricted to the primitive types the builder caches). -/
inductive FieldType where
  | tBool
  | tInt
  | tLong
  | tFloat
  | tDouble
  | tString
deriving DecidableEq, Repr

/-- Variant value held for a primitive field (utils/variant.h). -/
inductive Variant where
  | vBool (b : Bool)
  | vInt (i : Int)
  | vLong (i : Int)
  | vFloat (q : Rat)
  | vDouble (q : Rat)
  | vString (s : String)
deriving DecidableEq, Repr

/-- Runtime type tag of a variant value. -/
def Variant.getType : Variant → FieldType
  | .vBool _ => .tBool
  | .vInt _ => .tInt
  | .vLong _ => .tLong
  | .vFloat _ => .tFloat
  | .vDouble _ => .tDouble
  | .vString _ => .tString

/-- Field descriptor of the reflection schema (reflection::Field): a name and
a declared primitive type. -/
structure Field where
  name : String
  fieldType : FieldType
deriving DecidableEq, Repr

/-- Schema table descriptor (reflection::Object): its field descriptors. -/
structure FbObject where
  fields : List Field
deriving DecidableEq, Repr

/-- Modelled from the spec: ReflectiveFlatbuffer::GetFieldOrNull
(utils/flatbuffers.cc is not under src/; the spec says Set resolves the
field descriptor by name and fails if absent). -/
def GetFieldOrNull (ty : FbObject) (nm : String) : Option Field :=
  ty.fields.find? (fun f => decide (f.name = nm))

/-- Modelled from the spec: ReflectiveFlatbuffer::IsMatchingType
(utils/flatbuffers.cc is not under src/; the spec says Set checks the
value's runtime type against the field's declared scalar/string type and
rejects on mismatch, never coercing). -/
def IsMatchingType (f : Field) (v : Variant) : Bool :=
  decide (f.fieldType = v.getType)

/-- A reflective flatbuffer record: its schema type and the cached primitive
field values (the std::map from field descriptor to variant value). -/
structure ReflectiveFlatbuffer where
  type_ : FbObject
  fields_ : List (Field × Variant)
deriving DecidableEq, Repr

/-- Assignment into the field map, mirroring std::map operator[]=: overwrite
the entry for the key if present, otherwise add a new entry. -/
def mapAssign (m : List (Field × Variant)) (f : Field) (v : Variant) :
    List (Field × Variant) :=
  if m.any (fun e => decide (e.1 = f)) then
    m.map (fun e => if e.1 = f then (f, v) else e)
  else m ++ [(f, v)]

/-- ReflectiveFlatbuffer::Set(field, value) from utils/flatbuffers.h: reject a
null field, reject a type mismatch leaving the record unchanged, otherwise
store the value. The Bool is the C++ return value. -/
def setByField (r : ReflectiveFlatbuffer) (f : Option Field) (v : Variant) :
    Bool × ReflectiveFlatbuffer :=
  match f with
  | none => (false, r)
  | some f =>
    if !IsMatchingType f v then (false, r)
    else (true, { r with fields_ := mapAssign r.fields_ f v })

/-- ReflectiveFlatbuffer::Set(field_name, value) from utils/flatbuffers.h:
resolve the field by name, then set by field descriptor. -/
def setByName (r : ReflectiveFlatbuffer) (nm : String) (v : Variant) :
    Bool × ReflectiveFlatbuffer :=
  match GetFieldOrNull r.type_ nm with
  | some f => setByField r (some f) v
  | none => (false, r)

/-- Lookup of the stored value for a field descriptor. -/
def getField (r : ReflectiveFlatbuffer) (f : Field) : Option Variant :=
  (r.fields_.find? (fun e => decide (e.1 = f))).map (·.2)

/-- The typing invariant: every cached value's runtime type matches its field
descriptor's declared type. -/
def WellTyped (r : ReflectiveFlatbuffer) : Prop :=
  ∀ e ∈ r.fields_, IsMatchingType e.1 e.2 = true

/-! Double-array trie (utils/sentencepiece/double_array_trie.cc). -/

/-- A match emitted by the trie: the leaf's id and the consumed length. -/
structure TrieMatch where
  id : Int
  match_length : Nat
deriving DecidableEq, Repr

/-- The trie as seen by GatherPrefixMatches: the node-array length and the
per-node accessors offset/label/has_leaf/value (bit-level accessors of
double_array_trie.h, which only reads nodes_, abstracted as functions of the
node position). -/
structure DoubleArrayTrie where
  nodes_length : Nat
  offset : Nat → Nat
  label : Nat → Nat
  has_leaf : Nat → Bool
  value : Nat → Int

/-- The loop of DoubleArrayTrie::GatherPrefixMatches. pos is the current
position, i the 1-based count of consumed bytes, acc the matches so far.
none models the false (corrupted trie) return; the unsigned pos makes the
pos less-than-zero halves of the C++ checks vacuous. -/
def gatherLoop (t : DoubleArrayTrie) :
    Nat → Nat → List Nat → List TrieMatch → Option (List TrieMatch)
  | _, _, [], acc => some acc
  | pos, i, b :: rest, acc =>
    if b = 0 then some acc
    else
      let p := pos ^^^ b
      if p ≥ t.nodes_length then some acc
      else if !(decide (t.label p = b)) then some acc
      else
        let leaf := t.has_leaf p
        let c := p ^^^ t.offset p
        if c > t.nodes_length then none
        else gatherLoop t c (i + 1) rest (if leaf then acc ++ [⟨t.value c, i⟩] else acc)

/-- DoubleArrayTrie::GatherPrefixMatches: an empty trie succeeds with no
matches; otherwise walk from the root offset. -/
def GatherPrefixMatches (t : DoubleArrayTrie) (input : List Nat) :
    Option (List TrieMatch) :=
  if t.nodes_length = 0 then some []
  else gatherLoop t (t.offset 0) 1 input []

/-- One step of the trie walk: the matched node, the child position computed
from it, and the 1-based consumed length. -/
structure TrieStep where
  node : Nat
  child : Nat
  consumed : Nat
deriving DecidableEq, Repr

/-- The sequence of accepted steps of the trie walk, including a final step
whose child position is out of bounds (the corruption case). -/
def trieSteps (t : DoubleArrayTrie) : Nat → Nat → List Nat → List TrieStep
  | _, _, [] => []
  | pos, i, b :: rest =>
    if b = 0 then []
    else
      let p := pos ^^^ b
      if p ≥ t.nodes_length then []
      else if !(decide (t.label p = b)) then []
      else
        let c := p ^^^ t.offset p
        ⟨p, c, i⟩ :: (if c > t.nodes_length then [] else trieSteps t c (i + 1) rest)

/-- A step is a corruption step when its child position exceeds the
node-array length strictly. -/
def trieStepError (t : DoubleArrayTrie) (s : TrieStep) : Bool :=
  decide (s.child > t.nodes_length)

/-- The match a step emits: at a leaf-flagged node, the leaf's id (read at
the child position) and the consumed length. -/
def trieStepMatch (t : DoubleArrayTrie) (s : TrieStep) : Option TrieMatch :=
  if t.has_leaf s.node then some ⟨t.value s.child, s.consumed⟩ else none

/-! Locale matcher (ActionsSuggestions::IsLocaleSupportedByModel). -/

/-- A parsed locale: the language-script-region triple plus the validity and
unknown classifications of utils/i18n/locale.h (whose parser is outside the
matcher; the matcher only reads these five observations). -/
structure Locale where
  language : String
  script : String
  region : String
  isValid : Bool
  isUnknown : Bool
deriving DecidableEq, Repr

/-- The per-pair body of the locale loop of IsLocaleSupportedByModel: the
three component checks of actions-suggestions.cc against one model-declared
locale, with the wildcard token "*". -/
def localePairMatches (ml locale : Locale) : Bool :=
  (ml.language.isEmpty || decide (ml.language = "*") ||
    decide (ml.language = locale.language)) &&
  (ml.script.isEmpty || decide (ml.script = "*") || locale.script.isEmpty ||
    decide (ml.script = locale.script)) &&
  (ml.region.isEmpty || decide (ml.region = "*") || locale.region.isEmpty ||
    decide (ml.region = locale.region))

/-- Triggering-precondition configuration (ActionsModel preconditions table,
the fields read by the gating pipeline). -/
structure Preconditions where
  min_smart_reply_triggering_score : Rat
  max_sensitive_topic_score : Rat
  suppress_on_sensitive_topic : Bool
  suppress_on_low_confidence_input : Bool
  min_input_length : Int
  max_input_length : Int
  min_locale_match_fraction : Rat
  handle_missing_locale_as_supported : Bool
  handle_unknown_locale_as_supported : Bool
deriving Repr

/-- ActionsSuggestions::IsLocaleSupportedByModel: invalid never matches,
unknown matches per configuration, otherwise scan the declared model
locales, skipping invalid ones. -/
def IsLocaleSupportedByModel (precs : Preconditions) (locales_ : List Locale)
    (locale : Locale) : Bool :=
  if !locale.isValid then false
  else if locale.isUnknown then precs.handle_unknown_locale_as_supported
  else locales_.any (fun ml => ml.isValid && localePairMatches ml locale)

/-- ActionsSuggestions::IsAnyLocaleSupportedByModel: an empty list matches per
configuration, otherwise any supported member suffices. -/
def IsAnyLocaleSupportedByModel (precs : Preconditions)
    (locales_ : List Locale) (ls : List Locale) : Bool :=
  if ls.isEmpty then precs.handle_missing_locale_as_supported
  else ls.any (IsLocaleSupportedByModel precs locales_)

/-- The claim's per-component matching rule, written from the spec's words:
for each of language, script and region the model field is empty, or the
wildcard, or equals the candidate field, or (script and region only) the
candidate field is empty. -/
def localeMatchesSpecRule (ml locale : Locale) : Prop :=
  (ml.language = "" ∨ ml.language = "*" ∨ ml.language = locale.language) ∧
  (ml.script = "" ∨ ml.script = "*" ∨ locale.script = "" ∨
    ml.script = locale.script) ∧
  (ml.region = "" ∨ ml.region = "*" ∨ locale.region = "" ∨
    ml.region = locale.region)

instance (ml locale : Locale) : Decidable (localeMatchesSpecRule ml locale) := by
  unfold localeMatchesSpecRule; infer_instance

/-! Conversation data model (actions/types.h). -/

/-- One ranked classification of an annotated span. -/
structure ClassificationResult where
  collection : String
  score : Rat
deriving DecidableEq, Repr

/-- A pre-computed annotated span of a message: codepoint span and ranked
classifications. -/
structure AnnotatedSpan where
  spanBegin : Nat
  spanEnd : Nat
  classification : List ClassificationResult
deriving DecidableEq, Repr

/-- One conversation message. -/
structure ConversationMessage where
  user_id : Int
  text : String
  reference_time_ms_utc : Int
  locales : String
  annotations : List AnnotatedSpan
deriving DecidableEq, Repr

/-- The conversation: the chronologically ordered messages. -/
structure Conversation where
  messages : List ConversationMessage
deriving DecidableEq, Repr

/-- An annotation attached to an action suggestion (message index, span,
originating classification, collection name, extracted substring). -/
structure ActionSuggestionAnnot where
  message_index : Nat
  spanBegin : Nat
  spanEnd : Nat
  entity : ClassificationResult
  name : String
  text : String
deriving DecidableEq, Repr

/-- One suggested action. -/
structure ActionSuggestion where
  response_text : String
  type : String
  score : Rat
  annotations : List ActionSuggestionAnnot := []
  serialized_entity_data : String := ""
deriving DecidableEq, Repr

/-- The response record. Modelled from the spec: the flag fields of the
response type (actions/types.h is not under src/) start unset so the caller
can distinguish policy suppression from an empty result; the two score
fields start at the -1 sentinel. -/
structure ActionsSuggestionsResponse where
  triggering_score : Rat := -1
  sensitivity_score : Rat := -1
  output_filtered_sensitivity : Bool := false
  output_filtered_min_triggering_score : Bool := false
  output_filtered_locale_mismatch : Bool := false
  output_filtered_low_confidence : Bool := false
  actions : List ActionSuggestion := []
deriving DecidableEq, Repr

/-- The fresh response a SuggestActions request starts from. -/
def initResponse : ActionsSuggestionsResponse := {}

/-- Per-request options (the field the model-output reader consults). -/
structure ActionSuggestionOptions where
  ignore_min_replies_triggering_threshold : Bool := false
deriving DecidableEq, Repr

/-! Model configuration (actions_model.fbs tables, the fields the pipeline
reads). -/

/-- Output-tensor slots of the TFLite model spec; a negative slot means the
output is not produced. -/
structure TfLiteModelSpec where
  output_triggering_score : Int
  output_sensitive_topic_score : Int
  output_replies : Int
  output_replies_scores : Int
  output_actions_scores : Int
deriving DecidableEq, Repr

/-- One action-class entry of the model's action_type table. -/
structure ActionTypeSpec where
  name : String
  enabled : Bool
  min_triggering_score : Rat
deriving DecidableEq, Repr

/-- A declared action of a rule or mapping (ActionSuggestionSpec table). -/
structure ActionSuggestionSpec where
  response_text : Option String
  type : String
  score : Rat
  serialized_entity_data : Option String
deriving DecidableEq, Repr

/-- One capturing-group-to-field mapping of a rule action. -/
structure CapturingGroup where
  group_id : Int
  entity_field : String
deriving DecidableEq, Repr

/-- One action spec of a rule, with its optional capturing-group mappings. -/
structure RuleActionSpec where
  action : ActionSuggestionSpec
  capturing_group : Option (List CapturingGroup)
deriving DecidableEq, Repr

/-- One declarative rule: its attached action specs (the pattern itself lives
in the compiled matcher). -/
structure Rule where
  actions : List RuleActionSpec
deriving DecidableEq, Repr

/-- One entry of the annotation-to-action mapping table. -/
structure AnnotationMapping where
  annotation_collection : String
  min_annotation_score : Rat
  use_annotation_score : Bool
  action : ActionSuggestionSpec
deriving DecidableEq, Repr

/-- The annotation-actions configuration. -/
structure AnnotationActionsSpec where
  annotation_mapping : List AnnotationMapping
  deduplicate_annotations : Bool
deriving DecidableEq, Repr

/-- The ActionsModel fields the pipeline reads. -/
structure ActionsModel where
  preconditions : Preconditions
  max_conversation_history_length : Int
  smart_reply_action_type : String
  action_type : List ActionTypeSpec
  tflite_model_spec : Option TfLiteModelSpec
  annotation_actions_spec : Option AnnotationActionsSpec
deriving Repr

/-! External collaborators as oracles. -/

/-- The observable state of one regex match: what the capturing-group
extractor may read from the matcher (group participation and text). -/
structure MatchData where
  groups : List (Option String)
deriving DecidableEq, Repr

/-- The trace of repeated Matcher::Find calls over one text: the matches
yielded with an ok status, in order, and whether the iteration then ended
with an error status rather than plain not-found. -/
structure MatcherResult where
  foundMatches : List MatchData
  endsInError : Bool
deriving DecidableEq, Repr

/-- A rule paired with its compiled pattern, the pattern abstracted as its
match trace per input text. -/
structure CompiledRule where
  rule : Rule
  matchFn : String → MatcherResult

/-- Raw float output tensor view: validity and flat data (dim 0 and size are
its length). -/
structure TensorViewF where
  valid : Bool
  data : List Rat
deriving DecidableEq, Repr

/-- Everything ReadModelOutput reads back from one model invocation. -/
structure ModelRawOutput where
  triggering_score : TensorViewF
  sensitive_topic_score : TensorViewF
  replies : List String
  replies_scores : List Rat
  actions_scores : List Rat
deriving DecidableEq, Repr

/-- The initialized engine state plus its external collaborators: the model
configuration, the compiled primary and low-confidence rule sets, the parsed
model locales, the locale-string parser, the optional annotator, the TFLite
invocation (CreateInterpreter, AllocateTensors and Invoke folded into one
fallible call), the ranker, and the reflective-builder operations whose
bodies live outside the pipeline translation unit. -/
structure Env where
  model : ActionsModel
  compiled_rules : List CompiledRule
  low_confidence_rules : List CompiledRule
  locales_ : List Locale
  parseLocales : String → Option (List Locale)
  annotator : Option (String → List AnnotatedSpan)
  modelInvoke : Conversation → Int → Option ModelRawOutput
  rankActions : ActionsSuggestionsResponse → Bool × ActionsSuggestionsResponse
  newRoot : ReflectiveFlatbuffer
  mergeSerialized : ReflectiveFlatbuffer → String → ReflectiveFlatbuffer
  serializeEntity : ReflectiveFlatbuffer → String
  setCapturingGroup :
    Int → String → MatchData → ReflectiveFlatbuffer → Option ReflectiveFlatbuffer

/-! Annotation deduplication (ActionsSuggestions::DeduplicateAnnotations). -/

/-- The deduplication key: collection name and matched substring. -/
def dedupKey (a : ActionSuggestionAnnot) : String × String :=
  (a.name, a.text)

/-- Placeholder annotation for out-of-range index lookups (never reached on
the indices the algorithm produces). -/
def defaultAnnot : ActionSuggestionAnnot :=
  ⟨0, 0, 0, ⟨"", 0⟩, "", ""⟩

/-- Index lookup into the candidate annotation list. -/
def annGet (anns : List ActionSuggestionAnnot) (j : Nat) : ActionSuggestionAnnot :=
  anns.getD j defaultAnnot

/-- One iteration of the DeduplicateAnnotations loop at index i: find the map
entry for the key; if present, keep the annotation with the strictly higher
score (ties keep the stored, earlier index); otherwise insert index i. -/
def dedupStep (anns : List ActionSuggestionAnnot)
    (m : List ((String × String) × Nat)) (i : Nat) (a : ActionSuggestionAnnot) :
    List ((String × String) × Nat) :=
  match m.find? (fun e => decide (e.1 = dedupKey a)) with
  | some e =>
    if (annGet anns e.2).entity.score < a.entity.score then
      m.map (fun e2 => if e2.1 = dedupKey a then (e2.1, i) else e2)
    else m
  | none => m ++ [(dedupKey a, i)]

/-- The loop over all candidate annotations, i the index of the first element
of the remaining list. -/
def dedupMapAux (anns : List ActionSuggestionAnnot) :
    Nat → List ActionSuggestionAnnot → List ((String × String) × Nat) →
    List ((String × String) × Nat)
  | _, [], m => m
  | i, a :: rest, m => dedupMapAux anns (i + 1) rest (dedupStep anns m i a)

/-- The deduplication map after processing the whole candidate list. -/
def dedupMap (anns : List ActionSuggestionAnnot) :
    List ((String × String) × Nat) :=
  dedupMapAux anns 0 anns []

/-- Lexicographic order on deduplication keys (std::map iterates its entries
sorted by key). -/
def keyLe (a b : (String × String) × Nat) : Bool :=
  decide (a.1.1 < b.1.1) ||
    (decide (a.1.1 = b.1.1) && (decide (a.1.2 < b.1.2) || decide (a.1.2 = b.1.2)))

/-- Ordered insertion for the key sort. -/
def insortKey (x : (String × String) × Nat) :
    List ((String × String) × Nat) → List ((String × String) × Nat)
  | [] => [x]
  | y :: ys => if keyLe x y then x :: y :: ys else y :: insortKey x ys

/-- Sort the deduplication map by key, as std::map iteration does. -/
def sortByKey :
    List ((String × String) × Nat) → List ((String × String) × Nat)
  | [] => []
  | x :: xs => insortKey x (sortByKey xs)

/-- ActionsSuggestions::DeduplicateAnnotations: the selected annotation
indices, one per distinct key, in key order. -/
def DeduplicateAnnotations (anns : List ActionSuggestionAnnot) : List Nat :=
  (sortByKey (dedupMap anns)).map (·.2)

/-! Annotation pass (ActionsSuggestions::SuggestActionsFromAnnotations). -/

/-- UnicodeText::UTF8Substring over codepoint indices. -/
def utf8Substring (s : String) (b e : Nat) : String :=
  String.mk ((s.toList.drop b).take (e - b))

/-- Fallback message for last-message access (the pipeline only reads the
last message of a non-empty conversation). -/
def defaultMessage : ConversationMessage :=
  ⟨0, "", 0, "", []⟩

/-- Text of the last message of the conversation. -/
def lastMessageText (conv : Conversation) : String :=
  (conv.messages.getLastD defaultMessage).text

/-- ActionsSuggestions::CreateActionsFromAnnotation: for every mapping entry
whose collection equals the annotation's and whose score threshold is met,
append one action with the mapped type, the chosen score and the mapping's
static entity payload. -/
def CreateActionsFromAnnot (spec : AnnotationActionsSpec)
    (annot : ActionSuggestionAnnot) (r : ActionsSuggestionsResponse) :
    ActionsSuggestionsResponse :=
  { r with actions := r.actions ++ spec.annotation_mapping.filterMap (fun mp =>
      if mp.annotation_collection = annot.entity.collection then
        if annot.entity.score < mp.min_annotation_score then none
        else
          some { response_text := ""
                 type := mp.action.type
                 score := if mp.use_annotation_score then annot.entity.score
                          else mp.action.score
                 annotations := [annot]
                 serialized_entity_data := mp.action.serialized_entity_data.getD "" }
      else none) }

/-- The candidate annotations of the last message: spans with a non-empty
classification list become candidates carrying their top classification and
extracted substring. -/
def candidateAnnots (conv : Conversation) (spans : List AnnotatedSpan) :
    List ActionSuggestionAnnot :=
  spans.filterMap (fun sp =>
    match sp.classification with
    | [] => none
    | c :: _ =>
      some { message_index := conv.messages.length - 1
             spanBegin := sp.spanBegin
             spanEnd := sp.spanEnd
             entity := c
             name := c.collection
             text := utf8Substring (lastMessageText conv) sp.spanBegin sp.spanEnd })

/-- ActionsSuggestions::SuggestActionsFromAnnotations: nothing without a
mapping table; annotate on demand when the last message carries no
pre-computed spans; then map either the deduplicated representatives or all
candidates. -/
def SuggestActionsFromAnnotations (env : Env) (conv : Conversation)
    (r : ActionsSuggestionsResponse) : ActionsSuggestionsResponse :=
  match env.model.annotation_actions_spec with
  | none => r
  | some spec =>
    if spec.annotation_mapping.isEmpty then r
    else
      let lastMsg := conv.messages.getLastD defaultMessage
      let spans :=
        if lastMsg.annotations.isEmpty then
          match env.annotator with
          | some annotate => annotate lastMsg.text
          | none => lastMsg.annotations
        else lastMsg.annotations
      let cands := candidateAnnots conv spans
      if spec.deduplicate_annotations then
        (DeduplicateAnnotations cands).foldl
          (fun acc j => CreateActionsFromAnnot spec (annGet cands j) acc) r
      else
        cands.foldl (fun acc a => CreateActionsFromAnnot spec a acc) r

/-! Model pass (ActionsSuggestions::ReadModelOutput and
SuggestActionsFromModel). -/

/-- The smart-reply and action-class reading tail of ReadModelOutput, reached
only when the sensitivity filter did not fire. -/
def readModelReplies (model : ActionsModel) (spec : TfLiteModelSpec)
    (out : ModelRawOutput) (r : ActionsSuggestionsResponse) :
    ActionsSuggestionsResponse :=
  let r :=
    if !r.output_filtered_min_triggering_score && spec.output_replies ≥ 0 then
      { r with actions := r.actions ++ out.replies.enum.filterMap (fun p =>
          if p.2.isEmpty then none
          else
            some { response_text := p.2
                   type := model.smart_reply_action_type
                   score := out.replies_scores.getD p.1 0 }) }
    else r
  if spec.output_actions_scores ≥ 0 then
    { r with actions := r.actions ++ model.action_type.enum.filterMap (fun p =>
        if !p.2.enabled then none
        else
          let score := out.actions_scores.getD p.1 0
          if score < p.2.min_triggering_score then none
          else some { response_text := "", type := p.2.name, score := score }) }
  else r

/-- The sensitivity block of ReadModelOutput and the suppression gate behind
it: read the sensitivity score when its slot is produced (an invalid tensor
aborts the whole read), set the filter flag, and return before any model
action is appended when the flag is set. -/
def readModelSensitivityAndRest (model : ActionsModel) (spec : TfLiteModelSpec)
    (out : ModelRawOutput) (r : ActionsSuggestionsResponse) :
    ActionsSuggestionsResponse :=
  if spec.output_sensitive_topic_score ≥ 0 then
    if !out.sensitive_topic_score.valid ∨ out.sensitive_topic_score.data.length ≠ 1
    then r
    else
      let s := out.sensitive_topic_score.data.headD 0
      let r := { r with
                 sensitivity_score := s
                 output_filtered_sensitivity :=
                   decide (s > model.preconditions.max_sensitive_topic_score) }
      if r.output_filtered_sensitivity then r else readModelReplies model spec out r
  else if r.output_filtered_sensitivity then r
  else readModelReplies model spec out r

/-- ActionsSuggestions::ReadModelOutput: the triggering-score block (an
invalid tensor aborts the whole read), then sensitivity and the guarded
reply/action reads. -/
def ReadModelOutput (model : ActionsModel) (spec : TfLiteModelSpec)
    (out : ModelRawOutput) (opts : ActionSuggestionOptions)
    (r : ActionsSuggestionsResponse) : ActionsSuggestionsResponse :=
  if spec.output_triggering_score ≥ 0 then
    if !out.triggering_score.valid ∨ out.triggering_score.data.length = 0 then r
    else
      let t := out.triggering_score.data.headD 0
      let r := { r with
                 triggering_score := t
                 output_filtered_min_triggering_score :=
                   !opts.ignore_min_replies_triggering_threshold &&
                     decide (t < model.preconditions.min_smart_reply_triggering_score) }
      readModelSensitivityAndRest model spec out r
  else readModelSensitivityAndRest model spec out r

/-- ActionsSuggestions::SuggestActionsFromModel: no-op without an executor
(no TFLite spec), or when interpreter construction, tensor allocation or
invocation fails (the oracle returns none); otherwise read the output. -/
def SuggestActionsFromModel (env : Env) (conv : Conversation)
    (num_messages : Int) (opts : ActionSuggestionOptions)
    (r : ActionsSuggestionsResponse) : ActionsSuggestionsResponse :=
  match env.model.tflite_model_spec with
  | none => r
  | some spec =>
    match env.modelInvoke conv num_messages with
    | none => r
    | some out => ReadModelOutput env.model spec out opts r

/-! Rule pass (ActionsSuggestions::SuggestActionsFromRules). -/

/-- ActionsSuggestions::HasEntityData: a rule has entity data when any of its
actions declares a static serialized payload or a capturing group. -/
def HasEntityData (rule : Rule) : Bool :=
  rule.actions.any (fun ra =>
    ra.action.serialized_entity_data.isSome || ra.capturing_group.isSome)

/-- The suggestion built for one match and one rule action: when the rule has
entity data, start from a fresh root record, merge the action's static
payload, apply every capturing-group mapping (the first failure aborts), and
serialize; otherwise the payload is the empty string. -/
def ruleActionSuggestion (env : Env) (m : MatchData) (ra : RuleActionSpec)
    (hasED : Bool) : Option ActionSuggestion :=
  if hasED then
    let ed0 := env.newRoot
    let ed1 :=
      match ra.action.serialized_entity_data with
      | some s => env.mergeSerialized ed0 s
      | none => ed0
    let ed2 :=
      match ra.capturing_group with
      | some groups =>
        groups.foldl
          (fun acc g => acc.bind (env.setCapturingGroup g.group_id g.entity_field m))
          (some ed1)
      | none => some ed1
    match ed2 with
    | none => none
    | some ed =>
      some { response_text := (ra.action.response_text).getD ""
             type := ra.action.type
             score := ra.action.score
             annotations := []
             serialized_entity_data := env.serializeEntity ed }
  else
    some { response_text := (ra.action.response_text).getD ""
           type := ra.action.type
           score := ra.action.score
           annotations := []
           serialized_entity_data := "" }

/-- The inner loop over a matched rule's action specs; a failed
capturing-group extraction aborts, keeping the suggestions appended so far. -/
def rulePassOverActions (env : Env) (m : MatchData) (hasED : Bool) :
    List RuleActionSpec → Bool × List ActionSuggestion
  | [] => (true, [])
  | ra :: rest =>
    match ruleActionSuggestion env m ra hasED with
    | none => (false, [])
    | some s =>
      let t := rulePassOverActions env m hasED rest
      (t.1, s :: t.2)

/-- The loop over the ok matches of one rule. -/
def rulePassOverMatches (env : Env) (rule : Rule) (hasED : Bool) :
    List MatchData → Bool × List ActionSuggestion
  | [] => (true, [])
  | m :: rest =>
    let h := rulePassOverActions env m hasED rule.actions
    if h.1 then
      let t := rulePassOverMatches env rule hasED rest
      (t.1, h.2 ++ t.2)
    else (false, h.2)

/-- The loop over the compiled rules; an error status merely ends a rule's
match iteration (the while condition), it does not fail the pass. -/
def rulePassOverRules (env : Env) (text : String) :
    List CompiledRule → Bool × List ActionSuggestion
  | [] => (true, [])
  | cr :: rest =>
    let h := rulePassOverMatches env cr.rule (HasEntityData cr.rule)
      (cr.matchFn text).foundMatches
    if h.1 then
      let t := rulePassOverRules env text rest
      (t.1, h.2 ++ t.2)
    else (false, h.2)

/-- ActionsSuggestions::SuggestActionsFromRules: run the rules against the
last message's text, appending into the response; the Bool is the C++
return value. -/
def SuggestActionsFromRules (env : Env) (conv : Conversation)
    (r : ActionsSuggestionsResponse) : Bool × ActionsSuggestionsResponse :=
  let h := rulePassOverRules env (lastMessageText conv) env.compiled_rules
  (h.1, { r with actions := r.actions ++ h.2 })

/-! Gating pipeline (ActionsSuggestions::GatherActionsSuggestions and
SuggestActions). -/

/-- The clamped number of messages considered: the whole history unless a
non-negative configured maximum is smaller. -/
def numMessagesOf (model : ActionsModel) (conv : Conversation) : Int :=
  let chl : Int := conv.messages.length
  let mx := model.max_conversation_history_length
  if mx < 0 ∨ chl < mx then chl else mx

/-- The last n messages of the conversation. -/
def selectedMessages (conv : Conversation) (n : Int) : List ConversationMessage :=
  conv.messages.drop (conv.messages.length - n.toNat)

/-- Total byte length of the selected messages' texts. -/
def inputTextLength (conv : Conversation) (n : Int) : Int :=
  ((selectedMessages conv n).map (fun msg => (msg.text.utf8ByteSize : Int))).sum

/-- The input-length gate as the code computes it: too little input, or a
non-negative configured maximum exceeded. -/
def lengthGateStops (model : ActionsModel) (len : Int) : Bool :=
  decide (len < model.preconditions.min_input_length) ||
    (decide (model.preconditions.max_input_length ≥ 0) &&
      decide (len > model.preconditions.max_input_length))

/-- The input-length gate as the claim words it: outside the interval from
min_input_length to max_input_length, a max_input_length of at most zero
meaning unbounded above. -/
def specLengthGateStops (minLen maxLen len : Int) : Bool :=
  decide (len < minLen) || (decide (0 < maxLen) && decide (len > maxLen))

/-- How many selected messages have parseable locales supported by the model
(a message whose locale string fails to parse is skipped, not counted). -/
def numMatchingLocales (env : Env) (conv : Conversation) (n : Int) : Nat :=
  (selectedMessages conv n).countP (fun msg =>
    match env.parseLocales msg.locales with
    | none => false
    | some ls => IsAnyLocaleSupportedByModel env.model.preconditions env.locales_ ls)

/-- The locale-match-fraction gate: the fraction of matching selected
messages below the configured minimum (mkRat is the exact quotient of the
two counts). -/
def localeFractionLow (env : Env) (conv : Conversation) (n : Int) : Bool :=
  decide (mkRat (numMatchingLocales env conv n) n.toNat <
    env.model.preconditions.min_locale_match_fraction)

/-- ActionsSuggestions::IsLowConfidenceInput: any low-confidence rule matches
any of the selected messages. -/
def IsLowConfidenceInput (env : Env) (conv : Conversation) (n : Int) : Bool :=
  (selectedMessages conv n).any (fun msg =>
    env.low_confidence_rules.any (fun cr => !(cr.matchFn msg.text).foundMatches.isEmpty))

/-- The pipeline from the locale-fraction gate on (the code computes the
locale counts in the same loop as the input length, with no side effects, so
splitting here is behavior-preserving): fraction gate, low-confidence gate,
model pass, sensitivity suppression, rule pass. -/
def gatherPostLength (env : Env) (conv : Conversation)
    (opts : ActionSuggestionOptions) (n : Int) (r : ActionsSuggestionsResponse) :
    Bool × ActionsSuggestionsResponse :=
  if localeFractionLow env conv n then
    (true, { r with output_filtered_locale_mismatch := true })
  else if IsLowConfidenceInput env conv n then
    (true, { r with output_filtered_low_confidence := true })
  else
    let r := SuggestActionsFromModel env conv n opts r
    if env.model.preconditions.suppress_on_sensitive_topic &&
        r.output_filtered_sensitivity then
      (true, r)
    else SuggestActionsFromRules env conv r

/-- ActionsSuggestions::GatherActionsSuggestions: empty conversation succeeds
empty; no selected messages fails; annotation pass; input-length gate (the
C++ returns the response pointer converted to bool, hence true); then the
remaining gates and passes. -/
def GatherActionsSuggestions (env : Env) (conv : Conversation)
    (opts : ActionSuggestionOptions) (r0 : ActionsSuggestionsResponse) :
    Bool × ActionsSuggestionsResponse :=
  if conv.messages.isEmpty then (true, r0)
  else
    let n := numMessagesOf env.model conv
    if n ≤ 0 then (false, r0)
    else
      let r := SuggestActionsFromAnnotations env conv r0
      if lengthGateStops env.model (inputTextLength conv n) then (true, r)
      else gatherPostLength env conv opts n r

/-- ActionsSuggestions::SuggestActions: gather, then rank; either failure
clears the in-flight action list of the (possibly ranker-mutated) response. -/
def SuggestActions (env : Env) (conv : Conversation)
    (opts : ActionSuggestionOptions) : ActionsSuggestionsResponse :=
  let g := GatherActionsSuggestions env conv opts initResponse
  if !g.1 then { g.2 with actions := [] }
  else
    let rk := env.rankActions g.2
    if !rk.1 then { rk.2 with actions := [] } else rk.2

/-! Hypothesis bundles for the pipeline claims. -/

/-- The request reaches the model pass: non-empty conversation, a positive
selected-message count, and the three gates before the model pass all open. -/
def ReachesModelPass (env : Env) (conv : Conversation) : Prop :=
  conv.messages ≠ [] ∧
  0 < numMessagesOf env.model conv ∧
  lengthGateStops env.model (inputTextLength conv (numMessagesOf env.model conv)) = false ∧
  localeFractionLow env conv (numMessagesOf env.model conv) = false ∧
  IsLowConfidenceInput env conv (numMessagesOf env.model conv) = false

/-- The model produced a sensitivity output over the configured threshold:
the slot exists, the tensor is valid and one-dimensional of size one, and
the score exceeds max_sensitive_topic_score. -/
def SensitivityExceeds (model : ActionsModel) (spec : TfLiteModelSpec)
    (out : ModelRawOutput) : Prop :=
  spec.output_sensitive_topic_score ≥ 0 ∧
  out.sensitive_topic_score.valid = true ∧
  out.sensitive_topic_score.data.length = 1 ∧
  out.sensitive_topic_score.data.headD 0 > model.preconditions.max_sensitive_topic_score

/-- The triggering-score block does not abort the output read: either the
slot is absent or its tensor is valid and non-empty. -/
def TriggeringBlockPasses (spec : TfLiteModelSpec) (out : ModelRawOutput) : Prop :=
  spec.output_triggering_score < 0 ∨
    (out.triggering_score.valid = true ∧ out.triggering_score.data ≠ [])

/-- The ranker honors its contract: it only filters and reorders the action
list and leaves the sensitivity flag alone. -/
def RankerOnlyFilters (env : Env) : Prop :=
  ∀ r, ((env.rankActions r).2.actions).Sublist r.actions ∧
    (env.rankActions r).2.output_filtered_sensitivity = r.output_filtered_sensitivity

/-! Concrete instances used by witnesses and counterexamples. -/

/-- The flag-and-score observation of a response, used to state that a pass
only appends actions. -/
def flagsOf (r : ActionsSuggestionsResponse) : Bool × Bool × Bool × Bool × Rat × Rat :=
  (r.output_filtered_sensitivity, r.output_filtered_min_triggering_score,
   r.output_filtered_locale_mismatch, r.output_filtered_low_confidence,
   r.triggering_score, r.sensitivity_score)

/-- Fully permissive preconditions: no gate closes. -/
def openPrecs : Preconditions :=
  { min_smart_reply_triggering_score := 0
    max_sensitive_topic_score := 0
    suppress_on_sensitive_topic := false
    suppress_on_low_confidence_input := false
    min_input_length := 0
    max_input_length := -1
    min_locale_match_fraction := 0
    handle_missing_locale_as_supported := true
    handle_unknown_locale_as_supported := true }

/-- A minimal model: open gates, no TFLite model, no annotation mapping. -/
def baseModel : ActionsModel :=
  { preconditions := openPrecs
    max_conversation_history_length := -1
    smart_reply_action_type := "text_reply"
    action_type := []
    tflite_model_spec := none
    annotation_actions_spec := none }

/-- An empty reflective record over an empty schema. -/
def emptyRecord : ReflectiveFlatbuffer := ⟨⟨[]⟩, []⟩

/-- A base environment: no rules, no annotator, no model, identity ranker. -/
def baseEnv : Env :=
  { model := baseModel
    compiled_rules := []
    low_confidence_rules := []
    locales_ := []
    parseLocales := fun _ => some []
    annotator := none
    modelInvoke := fun _ _ => none
    rankActions := fun r => (true, r)
    newRoot := emptyRecord
    mergeSerialized := fun ed _ => ed
    serializeEntity := fun _ => "ED"
    setCapturingGroup := fun _ _ _ ed => some ed }

/-- A one-message conversation. -/
def oneMsgConv : Conversation := ⟨[⟨0, "x", 0, "", []⟩]⟩

/-- A rule with one action (type sms, score 1) and no entity data. -/
def smsRule : Rule := ⟨[⟨⟨none, "sms", 1, none⟩, none⟩]⟩

/-- Environment whose single rule yields one ok match and then an error
status from the matcher. -/
def errStatusEnv : Env :=
  { baseEnv with compiled_rules := [⟨smsRule, fun _ => ⟨[⟨[]⟩], true⟩⟩] }

/-- Environment whose ranker always fails. -/
def rankFailEnv : Env :=
  { baseEnv with rankActions := fun r => (false, r) }

/-- Model whose TFLite spec only produces the sensitivity output, with
suppression on sensitive topics enabled. -/
def sensitiveModel : ActionsModel :=
  { baseModel with
    preconditions := { openPrecs with suppress_on_sensitive_topic := true }
    tflite_model_spec := some ⟨-1, 0, -1, -1, -1⟩ }

/-- Environment whose model reports sensitivity score 1 (over the threshold
0), with one rule that would otherwise fire. -/
def sensitiveEnv : Env :=
  { baseEnv with
    model := sensitiveModel
    compiled_rules := [⟨smsRule, fun _ => ⟨[⟨[]⟩], false⟩⟩]
    modelInvoke := fun _ _ => some ⟨⟨true, []⟩, ⟨true, [1]⟩, [], [], []⟩ }

/-- The sensitive environment with suppression disabled. -/
def sensitiveNoSuppressEnv : Env :=
  { sensitiveEnv with
    model := { sensitiveModel with preconditions :=
      { openPrecs with suppress_on_sensitive_topic := false } } }

/-- Model with a zero max_input_length and a reply-producing TFLite spec. -/
def maxZeroModel : ActionsModel :=
  { baseModel with
    preconditions := { openPrecs with max_input_length := 0 }
    tflite_model_spec := some ⟨-1, -1, 0, 0, -1⟩ }

/-- Environment for the input-length-gate counterexample: a model that would
produce the smart reply "hi" if invoked. -/
def maxZeroEnv : Env :=
  { baseEnv with
    model := maxZeroModel
    modelInvoke := fun _ _ => some ⟨⟨true, []⟩, ⟨true, []⟩, ["hi"], [1], []⟩ }

/-- Environment for the length-gate witness: minimum input length 10. -/
def minTenEnv : Env :=
  { baseEnv with
    model := { maxZeroModel with preconditions :=
      { openPrecs with min_input_length := 10 } } }

/-- A locale with only a language component set. -/
def enLocale : Locale := ⟨"en", "", "", true, false⟩

/-- A fully specified candidate locale. -/
def enUsLocale : Locale := ⟨"en", "Latn", "US", true, false⟩

/-- A one-field integer schema record. -/
def intField : Field := ⟨"n", FieldType.tInt⟩

/-- A record typed against the one-integer-field schema. -/
def intRec : ReflectiveFlatbuffer := ⟨⟨[intField]⟩, []⟩

/-- The trie of the bounds counterexample: two nodes; from the root, byte 1
reaches node 1, whose child position 1 xor 3 = 2 equals the node-array
length. -/
def exTrie : DoubleArrayTrie :=
  ⟨2, fun p => if p = 1 then 3 else 0, fun _ => 1, fun _ => false, fun _ => 0⟩

/-- The two same-key candidate annotations of end-to-end scenario C, with
scores four tenths and eight tenths. -/
def scenarioAnnots : List ActionSuggestionAnnot :=
  [⟨0, 0, 8, ⟨"date", mkRat 2 5⟩, "date", "tomorrow"⟩,
   ⟨0, 0, 8, ⟨"date", mkRat 4 5⟩, "date", "tomorrow"⟩]

/-- The invariant satisfied by one deduplication-map entry after the first i
candidates have been processed: its index is a processed index whose key is
the entry key, carrying the maximal score among processed same-key
candidates, the earliest index among score ties. -/
def DedupEntryOk (anns : List ActionSuggestionAnnot) (i : Nat)
    (e : (String × String) × Nat) : Prop :=
  e.2 < anns.length ∧ e.2 < i ∧ dedupKey (annGet anns e.2) = e.1 ∧
  ∀ t, t < i → dedupKey (annGet anns t) = e.1 →
    ((annGet anns t).entity.score ≤ (annGet anns e.2).entity.score
     ∧ (t < e.2 → (annGet anns t).entity.score < (annGet anns e.2).entity.score))

/-- The loop invariant of DeduplicateAnnotations: every map entry is a valid
representative of its key among the first i candidates, the map's keys are
pairwise distinct, and every processed candidate's key has an entry. -/
def DedupInv (anns : List ActionSuggestionAnnot) (i : Nat)
    (m : List ((String × String) × Nat)) : Prop :=
  (∀ e ∈ m, DedupEntryOk anns i e)
  ∧ m.Pairwise (fun a b => a.1 ≠ b.1)
  ∧ ∀ t, t < i → ∃ e ∈ m, e.1 = dedupKey (annGet anns t)

/-! Helper lemmas. -/

theorem localePairMatches_iff (ml cand : Locale) :
    localePairMatches ml cand = true ↔ localeMatchesSpecRule ml cand := by
  simp [localePairMatches, localeMatchesSpecRule, Bool.and_eq_true, Bool.or_eq_true,
    decide_eq_true_eq, String.isEmpty_iff, or_assoc, and_assoc]

theorem find_map_update (m : List (Field × Variant)) (f : Field) (v : Variant)
    (h : m.any (fun e => decide (e.1 = f)) = true) :
    (m.map (fun e => if e.1 = f then (f, v) else e)).find?
      (fun e => decide (e.1 = f)) = some (f, v) := by
  induction m with
  | nil => simp at h
  | cons e es ih =>
    by_cases he : e.1 = f
    · rw [List.map_cons, if_pos he, List.find?_cons_of_pos _ (by simp)]
    · have h2 : es.any (fun e => decide (e.1 = f)) = true := by
        simpa [List.any_cons, he] using h
      rw [List.map_cons, if_neg he, List.find?_cons_of_neg _ (by simp [he]), ih h2]

theorem find_append_single (m : List (Field × Variant)) (f : Field) (v : Variant)
    (h : m.any (fun e => decide (e.1 = f)) = false) :
    (m ++ [(f, v)]).find? (fun e => decide (e.1 = f)) = some (f, v) := by
  induction m with
  | nil => rw [List.nil_append, List.find?_cons_of_pos _ (by simp)]
  | cons e es ih =>
    simp only [List.any_cons, Bool.or_eq_false_iff] at h
    have he : ¬(e.1 = f) := by simpa using h.1
    rw [List.cons_append, List.find?_cons_of_neg _ (by simp [he]), ih h.2]

theorem find_map_update_other (m : List (Field × Variant)) (f : Field) (v : Variant)
    (g : Field) (hg : g ≠ f) :
    (m.map (fun e => if e.1 = f then (f, v) else e)).find?
      (fun e => decide (e.1 = g)) = m.find? (fun e => decide (e.1 = g)) := by
  have hfg : ¬(f = g) := fun hc => hg hc.symm
  induction m with
  | nil => rfl
  | cons e es ih =>
    by_cases he : e.1 = f
    · have hne : ¬(e.1 = g) := by rw [he]; exact hfg
      rw [List.map_cons, if_pos he, List.find?_cons_of_neg _ (by simp [hfg]),
        List.find?_cons_of_neg _ (by simp [hne]), ih]
    · by_cases heg : e.1 = g
      · rw [List.map_cons, if_neg he, List.find?_cons_of_pos _ (by simp [heg]),
          List.find?_cons_of_pos _ (by simp [heg])]
      · rw [List.map_cons, if_neg he, List.find?_cons_of_neg _ (by simp [heg]),
          List.find?_cons_of_neg _ (by simp [heg]), ih]

theorem find_append_single_other (m : List (Field × Variant)) (f : Field)
    (v : Variant) (g : Field) (hg : g ≠ f) :
    (m ++ [(f, v)]).find? (fun e => decide (e.1 = g)) =
      m.find? (fun e => decide (e.1 = g)) := by
  have hfg : ¬(f = g) := fun hc => hg hc.symm
  induction m with
  | nil => rw [List.nil_append, List.find?_cons_of_neg _ (by simp [hfg])]
  | cons e es ih =>
    by_cases heg : e.1 = g
    · rw [List.cons_append, List.find?_cons_of_pos _ (by simp [heg]),
        List.find?_cons_of_pos _ (by simp [heg])]
    · rw [List.cons_append, List.find?_cons_of_neg _ (by simp [heg]),
        List.find?_cons_of_neg _ (by simp [heg]), ih]

theorem mem_mapAssign (m : List (Field × Variant)) (f : Field) (v : Variant)
    (e : Field × Variant) (he : e ∈ mapAssign m f v) : e ∈ m ∨ e = (f, v) := by
  unfold mapAssign at he
  by_cases h : m.any (fun e => decide (e.1 = f)) = true
  · rw [if_pos h] at he
    obtain ⟨x, hx, hxe⟩ := List.mem_map.mp he
    by_cases hxf : x.1 = f
    · right; rw [if_pos hxf] at hxe; exact hxe.symm
    · left; rw [if_neg hxf] at hxe; exact hxe ▸ hx
  · rw [if_neg h] at he
    rcases List.mem_append.mp he with h1 | h1
    · exact Or.inl h1
    · exact Or.inr (List.mem_singleton.mp h1)

theorem gatherLoop_spec (t : DoubleArrayTrie) :
    ∀ (input : List Nat) (pos i : Nat) (acc : List TrieMatch),
      gatherLoop t pos i input acc =
        if (trieSteps t pos i input).any (trieStepError t) then none
        else some (acc ++ (trieSteps t pos i input).filterMap (trieStepMatch t)) := by
  intro input
  induction input with
  | nil => intro pos i acc; simp [gatherLoop, trieSteps]
  | cons b rest ih =>
    intro pos i acc
    by_cases hb : b = 0
    · simp [gatherLoop, trieSteps, hb]
    · by_cases h1 : pos ^^^ b ≥ t.nodes_length
      · simp [gatherLoop, trieSteps, hb, h1]
      · by_cases h2 : t.label (pos ^^^ b) = b
        · by_cases h3 : (pos ^^^ b) ^^^ t.offset (pos ^^^ b) > t.nodes_length
          · simp [gatherLoop, trieSteps, hb, h1, h2, h3, trieStepError]
          · have herr :
                trieStepError t ⟨pos ^^^ b, (pos ^^^ b) ^^^ t.offset (pos ^^^ b), i⟩
                  = false := by
              simp [trieStepError, h3]
            by_cases hleaf : t.has_leaf (pos ^^^ b) = true
            · simp [gatherLoop, trieSteps, hb, h1, h2, h3, herr, ih, hleaf,
                trieStepMatch]
            · simp [gatherLoop, trieSteps, hb, h1, h2, h3, herr, ih, hleaf,
                trieStepMatch]
        · simp [gatherLoop, trieSteps, hb, h1, h2]

/-! Claim theorems. -/

/-- C1 (amended): if gathering suggestions fails (in this code a failed
capturing-group extraction during the rule pass makes gathering fail, while
a rule-matcher error status merely ends that rule's match iteration without
failing the pass) or the ranker's RankActions call fails, then SuggestActions
returns a response whose actions list is empty: the in-flight list is reset
and never returned as a partial list. -/
theorem suggest_actions_discards_on_failure (env : Env) (conv : Conversation)
    (opts : ActionSuggestionOptions)
    (h : (GatherActionsSuggestions env conv opts initResponse).1 = false ∨
      (env.rankActions (GatherActionsSuggestions env conv opts initResponse).2).1
        = false) :
    (SuggestActions env conv opts).actions = [] := by
  unfold SuggestActions
  rcases h with h | h
  · simp [h]
  · rcases hg : (GatherActionsSuggestions env conv opts initResponse).1 with _ | _
    · simp [hg]
    · simp [hg, h]

/-- Witness for C1: a failing ranker forces an empty final action list. -/
theorem suggest_actions_discards_on_failure_witness :
    (rankFailEnv.rankActions
      (GatherActionsSuggestions rankFailEnv oneMsgConv {} initResponse).2).1 = false
    ∧ (SuggestActions rankFailEnv oneMsgConv {}).actions = [] :=
  ⟨rfl, suggest_actions_discards_on_failure rankFailEnv oneMsgConv {} (Or.inr rfl)⟩

/-- C1 counterexample: a rule matcher that yields one ok match and then an
error status does not make gathering fail; SuggestActions returns the
suggestion from before the error status as a non-empty list, contradicting
the claim that a rule-matcher error status discards the action list. -/
theorem matcher_error_status_counterexample :
    (errStatusEnv.compiled_rules.map
      (fun cr => (cr.matchFn (lastMessageText oneMsgConv)).endsInError)).any id = true
    ∧ (GatherActionsSuggestions errStatusEnv oneMsgConv {} initResponse).1 = true
    ∧ (SuggestActions errStatusEnv oneMsgConv {}).actions = [⟨"", "sms", 1, [], ""⟩] :=
  ⟨by decide, by decide, by decide⟩

/-- C4: for a valid, non-unknown candidate and valid declared model locales,
IsLocaleSupportedByModel holds exactly when some declared locale matches the
candidate per component (model field empty, wildcard, or equal; candidate
empty additionally allowed for script and region only), and an empty
candidate language never matches a non-empty non-wildcard model language. -/
theorem locale_supported_characterization (precs : Preconditions)
    (locales_ : List Locale) (cand : Locale)
    (hv : cand.isValid = true) (hu : cand.isUnknown = false)
    (hml : ∀ ml ∈ locales_, ml.isValid = true) :
    (IsLocaleSupportedByModel precs locales_ cand = true ↔
      ∃ ml ∈ locales_, localeMatchesSpecRule ml cand)
    ∧ ∀ ml : Locale, cand.language = "" → ml.language ≠ "" → ml.language ≠ "*" →
        ¬localeMatchesSpecRule ml cand := by
  constructor
  · unfold IsLocaleSupportedByModel
    rw [hv, hu]
    simp only [Bool.not_true, Bool.false_eq_true, if_false, List.any_eq_true,
      Bool.and_eq_true]
    constructor
    · rintro ⟨ml, hm, _, hp⟩
      exact ⟨ml, hm, (localePairMatches_iff ml cand).mp hp⟩
    · rintro ⟨ml, hm, hp⟩
      exact ⟨ml, hm, hml ml hm, (localePairMatches_iff ml cand).mpr hp⟩
  · rintro ml hc h1 h2 ⟨hl, -, -⟩
    rcases hl with h | h | h
    · exact h1 h
    · exact h2 h
    · rw [hc] at h; exact h1 h

/-- Witness for C4: a model declaring only language en supports the en-Latn-US
candidate, via the single declared locale. -/
theorem locale_supported_characterization_witness :
    IsLocaleSupportedByModel openPrecs [enLocale] enUsLocale = true :=
  (locale_supported_characterization openPrecs [enLocale] enUsLocale rfl rfl
      (fun ml hm => by rw [List.mem_singleton.mp hm]; rfl)).1.mpr
    ⟨enLocale, List.mem_singleton_self _, by decide⟩

/-- C9 (amended): replacing a model-declared locale's language, script or
region with the wildcard or the empty string, or replacing the candidate's
script or region with the empty string, only widens the per-pair match
relation; replacing the candidate's language (or a candidate component by
the wildcard) is not a relaxation under these rules and may narrow it. -/
theorem locale_relaxation_monotone (ml cand : Locale)
    (h : localePairMatches ml cand = true) :
    localePairMatches { ml with language := "*" } cand = true
    ∧ localePairMatches { ml with language := "" } cand = true
    ∧ localePairMatches { ml with script := "*" } cand = true
    ∧ localePairMatches { ml with script := "" } cand = true
    ∧ localePairMatches { ml with region := "*" } cand = true
    ∧ localePairMatches { ml with region := "" } cand = true
    ∧ localePairMatches ml { cand with script := "" } = true
    ∧ localePairMatches ml { cand with region := "" } = true := by
  rw [localePairMatches_iff] at h
  obtain ⟨hL, hS, hR⟩ := h
  refine ⟨?_, ?_, ?_, ?_, ?_, ?_, ?_, ?_⟩ <;> rw [localePairMatches_iff]
  · exact ⟨Or.inr (Or.inl rfl), hS, hR⟩
  · exact ⟨Or.inl rfl, hS, hR⟩
  · exact ⟨hL, Or.inr (Or.inl rfl), hR⟩
  · exact ⟨hL, Or.inl rfl, hR⟩
  · exact ⟨hL, hS, Or.inr (Or.inl rfl)⟩
  · exact ⟨hL, hS, Or.inl rfl⟩
  · exact ⟨hL, Or.inr (Or.inr (Or.inl rfl)), hR⟩
  · exact ⟨hL, hS, Or.inr (Or.inr (Or.inl rfl))⟩

/-- Witness for C9: the matching en-en pair stays matching under each of the
eight relaxations. -/
theorem locale_relaxation_monotone_witness :
    localePairMatches enLocale enLocale = true
    ∧ localePairMatches { enLocale with language := "*" } enLocale = true :=
  ⟨by decide, (locale_relaxation_monotone enLocale enLocale (by decide)).1⟩

/-- C9 counterexample: the pair of identical en locales matches, but
replacing the candidate's language with the empty string (one of the
replacements the claim covers) makes it stop matching, so the claimed
monotonicity under every language/script/region replacement by wildcard or
empty on either side is false. -/
theorem locale_relaxation_counterexample :
    localePairMatches enLocale enLocale = true
    ∧ localePairMatches enLocale { enLocale with language := "" } = false
    ∧ localePairMatches enLocale { enLocale with language := "*" } = false :=
  ⟨by decide, by decide, by decide⟩

/-- C8: Set rejects, leaving the record unchanged, when the field is absent
or the value's runtime type mismatches the declared field type; a successful
Set stores the value for that field, overwriting any prior value and leaving
other fields untouched; and well-typedness of all cached values is preserved
by both Set overloads, so a record only ever holds values matching its
schema's declared field types. -/
theorem reflective_set_typing (r : ReflectiveFlatbuffer) (f : Field)
    (v : Variant) (nm : String) :
    (IsMatchingType f v = false → setByField r (some f) v = (false, r))
    ∧ (IsMatchingType f v = true →
        (setByField r (some f) v).1 = true
        ∧ getField (setByField r (some f) v).2 f = some v
        ∧ ∀ g : Field, g ≠ f →
            getField (setByField r (some f) v).2 g = getField r g)
    ∧ (GetFieldOrNull r.type_ nm = none → setByName r nm v = (false, r))
    ∧ (∀ f2, GetFieldOrNull r.type_ nm = some f2 →
        setByName r nm v = setByField r (some f2) v)
    ∧ (WellTyped r → WellTyped (setByField r (some f) v).2)
    ∧ (WellTyped r → WellTyped (setByName r nm v).2) := by
  have hset : ∀ (hm : IsMatchingType f v = true),
      (setByField r (some f) v).2 = { r with fields_ := mapAssign r.fields_ f v } := by
    intro hm
    simp [setByField, hm]
  have hwt : WellTyped r → WellTyped (setByField r (some f) v).2 := by
    intro hr
    cases hm : IsMatchingType f v with
    | true =>
      rw [hset hm]
      intro e he
      rcases mem_mapAssign r.fields_ f v e he with h | h
      · exact hr e h
      · rw [h]; exact hm
    | false =>
      have hrw : setByField r (some f) v = (false, r) := by simp [setByField, hm]
      rw [hrw]; exact hr
  refine ⟨?_, ?_, ?_, ?_, hwt, ?_⟩
  · intro hm
    simp [setByField, hm]
  · intro hm
    refine ⟨by simp [setByField, hm], ?_, ?_⟩
    · rw [hset hm]
      unfold getField mapAssign
      simp only
      by_cases h : r.fields_.any (fun e => decide (e.1 = f)) = true
      · rw [if_pos h, find_map_update r.fields_ f v h]; rfl
      · rw [if_neg h, find_append_single r.fields_ f v (Bool.eq_false_iff.mpr h)]; rfl
    · intro g hg
      rw [hset hm]
      unfold getField mapAssign
      simp only
      by_cases h : r.fields_.any (fun e => decide (e.1 = f)) = true
      · rw [if_pos h, find_map_update_other r.fields_ f v g hg]
      · rw [if_neg h, find_append_single_other r.fields_ f v g hg]
  · intro hn
    simp [setByName, hn]
  · intro f2 hf2
    simp [setByName, hf2]
  · intro hr
    unfold setByName
    cases hn : GetFieldOrNull r.type_ nm with
    | none => exact hr
    | some f2 =>
      show WellTyped (setByField r (some f2) v).2
      cases hm : IsMatchingType f2 v with
      | true =>
        have hrw : (setByField r (some f2) v).2 =
            { r with fields_ := mapAssign r.fields_ f2 v } := by
          simp [setByField, hm]
        rw [hrw]
        intro e he
        rcases mem_mapAssign r.fields_ f2 v e he with h | h
        · exact hr e h
        · rw [h]; exact hm
      | false =>
        have hrw : setByField r (some f2) v = (false, r) := by simp [setByField, hm]
        rw [hrw]; exact hr

/-- Witness for C8: on the one-integer-field record, setting a string value is
rejected unchanged and setting an integer stores it. -/
theorem reflective_set_typing_witness :
    setByField intRec (some intField) (Variant.vString "x") = (false, intRec)
    ∧ getField (setByField intRec (some intField) (Variant.vInt 7)).2 intField
        = some (Variant.vInt 7) :=
  ⟨(reflective_set_typing intRec intField (Variant.vString "x") "n").1 (by decide),
   ((reflective_set_typing intRec intField (Variant.vInt 7) "n").2.1 (by decide)).2.1⟩

/-- C7 (amended): the trie walk fails exactly when some accepted step's child
position exceeds the node-array length strictly; a child position equal to
the length is not treated as corruption (the following per-byte bounds
check, position at least the length, then ends the walk normally); on
success the matches are exactly the leaf-flagged steps' ids with their
consumed prefix lengths. -/
theorem trie_gather_characterization (t : DoubleArrayTrie) (input : List Nat) :
    (GatherPrefixMatches t input =
      if t.nodes_length = 0 then some []
      else if (trieSteps t (t.offset 0) 1 input).any (trieStepError t) then none
      else some ((trieSteps t (t.offset 0) 1 input).filterMap (trieStepMatch t)))
    ∧ (∀ s : TrieStep, s.child = t.nodes_length → trieStepError t s = false) := by
  constructor
  · unfold GatherPrefixMatches
    by_cases h : t.nodes_length = 0
    · simp [h]
    · rw [if_neg h, if_neg h, gatherLoop_spec t input (t.offset 0) 1 []]
      simp
  · intro s hs
    simp [trieStepError, hs]

/-- C7 counterexample: in the two-node trie, consuming byte 1 produces the
internal child position 2, equal to the node-array length, yet the call
returns success (an empty match list), not the error the claim requires for
a position equal to the bounds. -/
theorem trie_equal_bound_counterexample :
    GatherPrefixMatches exTrie [1] = some []
    ∧ trieSteps exTrie (exTrie.offset 0) 1 [1] = [⟨1, 2, 1⟩]
    ∧ exTrie.nodes_length = 2 :=
  ⟨by decide, by decide, rfl⟩

theorem foldl_flags_invariant {α : Type}
    (g : ActionsSuggestionsResponse → α → ActionsSuggestionsResponse)
    (hg : ∀ r x, flagsOf (g r x) = flagsOf r) :
    ∀ (l : List α) (r : ActionsSuggestionsResponse),
      flagsOf (l.foldl g r) = flagsOf r := by
  intro l
  induction l with
  | nil => intro r; rfl
  | cons x xs ih => intro r; rw [List.foldl_cons, ih, hg]

theorem suggestFromAnnots_flags (env : Env) (conv : Conversation)
    (r : ActionsSuggestionsResponse) :
    flagsOf (SuggestActionsFromAnnotations env conv r) = flagsOf r := by
  unfold SuggestActionsFromAnnotations
  cases env.model.annotation_actions_spec with
  | none => rfl
  | some spec =>
    simp only
    split
    · rfl
    · split
      · apply foldl_flags_invariant
        intro r2 j
        rfl
      · apply foldl_flags_invariant
        intro r2 a
        rfl

theorem messages_isEmpty_false (conv : Conversation) (hmsg : conv.messages ≠ []) :
    conv.messages.isEmpty = false := by
  cases h : conv.messages with
  | nil => exact absurd h hmsg
  | cons a l => rfl

theorem gather_reaches_model (env : Env) (conv : Conversation)
    (opts : ActionSuggestionOptions) (hreach : ReachesModelPass env conv) :
    GatherActionsSuggestions env conv opts initResponse =
      (if env.model.preconditions.suppress_on_sensitive_topic &&
          (SuggestActionsFromModel env conv (numMessagesOf env.model conv) opts
            (SuggestActionsFromAnnotations env conv initResponse)).output_filtered_sensitivity
       then (true, SuggestActionsFromModel env conv (numMessagesOf env.model conv) opts
              (SuggestActionsFromAnnotations env conv initResponse))
       else SuggestActionsFromRules env conv
              (SuggestActionsFromModel env conv (numMessagesOf env.model conv) opts
                (SuggestActionsFromAnnotations env conv initResponse))) := by
  obtain ⟨hmsg, hn, hlen, hfrac, hlow⟩ := hreach
  have he := messages_isEmpty_false conv hmsg
  unfold GatherActionsSuggestions
  simp only [he, Bool.false_eq_true, if_false, not_le.mpr hn, hlen,
    gatherPostLength, hfrac, hlow]

theorem readModelSensitivity_suppressed (model : ActionsModel)
    (spec : TfLiteModelSpec) (out : ModelRawOutput)
    (hslot : spec.output_sensitive_topic_score ≥ 0)
    (hvalid : out.sensitive_topic_score.valid = true)
    (hlen : out.sensitive_topic_score.data.length = 1)
    (hexceed : out.sensitive_topic_score.data.headD 0 >
      model.preconditions.max_sensitive_topic_score) :
    ∀ r : ActionsSuggestionsResponse,
      (readModelSensitivityAndRest model spec out r).output_filtered_sensitivity = true
      ∧ (readModelSensitivityAndRest model spec out r).actions = r.actions := by
  intro r
  have hdec : decide (out.sensitive_topic_score.data.headD 0 >
      model.preconditions.max_sensitive_topic_score) = true := decide_eq_true hexceed
  unfold readModelSensitivityAndRest
  rw [if_pos hslot, if_neg (by simp [hvalid, hlen])]
  simp only [hdec]
  exact ⟨rfl, rfl⟩

theorem readModelOutput_suppressed (model : ActionsModel) (spec : TfLiteModelSpec)
    (out : ModelRawOutput) (opts : ActionSuggestionOptions)
    (r : ActionsSuggestionsResponse)
    (ht : TriggeringBlockPasses spec out)
    (hs : SensitivityExceeds model spec out) :
    (ReadModelOutput model spec out opts r).output_filtered_sensitivity = true
    ∧ (ReadModelOutput model spec out opts r).actions = r.actions := by
  obtain ⟨hslot, hvalid, hlen, hexceed⟩ := hs
  have hsens := readModelSensitivity_suppressed model spec out hslot hvalid hlen hexceed
  unfold ReadModelOutput
  rcases ht with hneg | ⟨hval, hdata⟩
  · rw [if_neg (by omega : ¬spec.output_triggering_score ≥ 0)]
    exact hsens r
  · by_cases htr : spec.output_triggering_score ≥ 0
    · rw [if_pos htr,
        if_neg (by simp [hval, List.length_eq_zero, hdata])]
      exact hsens _
    · rw [if_neg htr]
      exact hsens r

/-- C3 (amended): with a non-empty conversation and a positive selected
message count, the input-length gate stops the pipeline exactly when the
total text length of the last num_messages messages is below
min_input_length or above a configured non-negative max_input_length (a
strictly negative max_input_length meaning unbounded above); when it stops,
the request succeeds with exactly the annotation-derived suggestions
gathered so far, no model-derived actions, and all suppression flags unset;
when it does not stop, the pipeline continues with the remaining gates and
passes. -/
theorem gather_length_gate (env : Env) (conv : Conversation)
    (opts : ActionSuggestionOptions)
    (hmsg : conv.messages ≠ [])
    (hn : 0 < numMessagesOf env.model conv) :
    (lengthGateStops env.model (inputTextLength conv (numMessagesOf env.model conv))
        = true →
      GatherActionsSuggestions env conv opts initResponse =
        (true, SuggestActionsFromAnnotations env conv initResponse)
      ∧ flagsOf (SuggestActionsFromAnnotations env conv initResponse) =
          (false, false, false, false, -1, -1))
    ∧ (lengthGateStops env.model (inputTextLength conv (numMessagesOf env.model conv))
        = false →
      GatherActionsSuggestions env conv opts initResponse =
        gatherPostLength env conv opts (numMessagesOf env.model conv)
          (SuggestActionsFromAnnotations env conv initResponse)) := by
  have he := messages_isEmpty_false conv hmsg
  constructor
  · intro hgate
    constructor
    · unfold GatherActionsSuggestions
      simp only [he, Bool.false_eq_true, if_false, not_le.mpr hn, hgate, if_true]
    · rw [suggestFromAnnots_flags]; rfl
  · intro hgate
    unfold GatherActionsSuggestions
    simp only [he, Bool.false_eq_true, if_false, not_le.mpr hn, hgate]

/-- Witness for C3: with min_input_length ten and a one-character message the
gate stops and the request succeeds with only annotation-derived actions. -/
theorem gather_length_gate_witness :
    lengthGateStops minTenEnv.model
      (inputTextLength oneMsgConv (numMessagesOf minTenEnv.model oneMsgConv)) = true
    ∧ GatherActionsSuggestions minTenEnv oneMsgConv {} initResponse =
        (true, SuggestActionsFromAnnotations minTenEnv oneMsgConv initResponse) :=
  ⟨by decide,
   ((gather_length_gate minTenEnv oneMsgConv {} (by decide) (by decide)).1
      (by decide)).1⟩

/-- C3 counterexample: with max_input_length zero and a one-byte message the
code's gate stops the pipeline (the gathered response has no actions), while
the claim's reading - max_input_length at most zero meaning unbounded above -
says it must not stop; had the pipeline continued, the model's smart reply
would be present. -/
theorem length_gate_max_zero_counterexample :
    specLengthGateStops 0 0 1 = false
    ∧ maxZeroEnv.model.preconditions.max_input_length = 0
    ∧ inputTextLength oneMsgConv (numMessagesOf maxZeroEnv.model oneMsgConv) = 1
    ∧ GatherActionsSuggestions maxZeroEnv oneMsgConv {} initResponse =
        (true, initResponse)
    ∧ (gatherPostLength maxZeroEnv oneMsgConv {} 1 initResponse).2.actions =
        [⟨"hi", "text_reply", 1, [], ""⟩] :=
  ⟨by decide, rfl, by decide, by decide, by decide⟩

/-- C2: whenever the pipeline reaches the model pass, the model's sensitivity
output exceeds max_sensitive_topic_score and suppress_on_sensitive_topic is
set, the gathered response succeeds with output_filtered_sensitivity set and
exactly the annotation-derived actions (zero model-derived, zero
rule-derived); under the ranker's filter-only contract the final
SuggestActions response keeps the flag and its actions remain a sublist of
the annotation-derived ones. -/
theorem sensitivity_suppression_end_to_end (env : Env) (conv : Conversation)
    (opts : ActionSuggestionOptions) (spec : TfLiteModelSpec)
    (out : ModelRawOutput)
    (hspec : env.model.tflite_model_spec = some spec)
    (hout : env.modelInvoke conv (numMessagesOf env.model conv) = some out)
    (hreach : ReachesModelPass env conv)
    (ht : TriggeringBlockPasses spec out)
    (hs : SensitivityExceeds env.model spec out)
    (hsup : env.model.preconditions.suppress_on_sensitive_topic = true)
    (hrank : RankerOnlyFilters env) :
    (GatherActionsSuggestions env conv opts initResponse).1 = true
    ∧ (GatherActionsSuggestions env conv opts
        initResponse).2.output_filtered_sensitivity = true
    ∧ (GatherActionsSuggestions env conv opts initResponse).2.actions =
        (SuggestActionsFromAnnotations env conv initResponse).actions
    ∧ (SuggestActions env conv opts).output_filtered_sensitivity = true
    ∧ (SuggestActions env conv opts).actions.Sublist
        (SuggestActionsFromAnnotations env conv initResponse).actions := by
  have hm : SuggestActionsFromModel env conv (numMessagesOf env.model conv) opts
      (SuggestActionsFromAnnotations env conv initResponse) =
      ReadModelOutput env.model spec out opts
        (SuggestActionsFromAnnotations env conv initResponse) := by
    unfold SuggestActionsFromModel
    rw [hspec, hout]
  have hro := readModelOutput_suppressed env.model spec out opts
    (SuggestActionsFromAnnotations env conv initResponse) ht hs
  have hflag : (SuggestActionsFromModel env conv (numMessagesOf env.model conv) opts
      (SuggestActionsFromAnnotations env conv
        initResponse)).output_filtered_sensitivity = true := by
    rw [hm]; exact hro.1
  have hacts : (SuggestActionsFromModel env conv (numMessagesOf env.model conv) opts
      (SuggestActionsFromAnnotations env conv initResponse)).actions =
      (SuggestActionsFromAnnotations env conv initResponse).actions := by
    rw [hm]; exact hro.2
  have hgather : GatherActionsSuggestions env conv opts initResponse =
      (true, SuggestActionsFromModel env conv (numMessagesOf env.model conv) opts
        (SuggestActionsFromAnnotations env conv initResponse)) := by
    rw [gather_reaches_model env conv opts hreach, if_pos (by rw [hsup, hflag]; rfl)]
  refine ⟨by rw [hgather], by rw [hgather]; exact hflag, by rw [hgather]; exact hacts,
    ?_, ?_⟩
  · unfold SuggestActions
    rw [hgather]
    simp only [Bool.not_true, Bool.false_eq_true, if_false]
    rcases hrk : (env.rankActions (true, SuggestActionsFromModel env conv
        (numMessagesOf env.model conv) opts
        (SuggestActionsFromAnnotations env conv initResponse)).2).1 with _ | _
    · simp only [hrk, Bool.not_false, if_true]
      have := (hrank (SuggestActionsFromModel env conv (numMessagesOf env.model conv)
        opts (SuggestActionsFromAnnotations env conv initResponse))).2
      rw [this]; exact hflag
    · simp only [hrk, Bool.not_true, Bool.false_eq_true, if_false]
      have := (hrank (SuggestActionsFromModel env conv (numMessagesOf env.model conv)
        opts (SuggestActionsFromAnnotations env conv initResponse))).2
      rw [this]; exact hflag
  · unfold SuggestActions
    rw [hgather]
    simp only [Bool.not_true, Bool.false_eq_true, if_false]
    rcases hrk : (env.rankActions (true, SuggestActionsFromModel env conv
        (numMessagesOf env.model conv) opts
        (SuggestActionsFromAnnotations env conv initResponse)).2).1 with _ | _
    · simp only [hrk, Bool.not_false, if_true]
      exact List.nil_sublist _
    · simp only [hrk, Bool.not_true, Bool.false_eq_true, if_false]
      have := (hrank (SuggestActionsFromModel env conv (numMessagesOf env.model conv)
        opts (SuggestActionsFromAnnotations env conv initResponse))).1
      rw [hacts] at this
      exact this

/-- Witness for C2: in the sensitive environment the gathered response has the
flag set and no actions, and the final response likewise. -/
theorem sensitivity_suppression_end_to_end_witness :
    (GatherActionsSuggestions sensitiveEnv oneMsgConv {} initResponse).1 = true
    ∧ (GatherActionsSuggestions sensitiveEnv oneMsgConv {}
        initResponse).2.output_filtered_sensitivity = true
    ∧ (GatherActionsSuggestions sensitiveEnv oneMsgConv {} initResponse).2.actions =
        (SuggestActionsFromAnnotations sensitiveEnv oneMsgConv initResponse).actions
    ∧ (SuggestActions sensitiveEnv oneMsgConv {}).output_filtered_sensitivity = true
    ∧ (SuggestActions sensitiveEnv oneMsgConv {}).actions.Sublist
        (SuggestActionsFromAnnotations sensitiveEnv oneMsgConv initResponse).actions :=
  sensitivity_suppression_end_to_end sensitiveEnv oneMsgConv {} ⟨-1, 0, -1, -1, -1⟩
    ⟨⟨true, []⟩, ⟨true, [1]⟩, [], [], []⟩ rfl rfl
    ⟨by decide, by decide, by decide, by decide, by decide⟩
    (Or.inl (by decide))
    ⟨by decide, rfl, rfl, by decide⟩
    rfl
    (fun r => ⟨List.Sublist.refl _, rfl⟩)

/-- C10: whenever the model's sensitivity output exceeds the threshold (and
the triggering block does not abort the read), ReadModelOutput sets
output_filtered_sensitivity and returns before appending any model-derived
smart replies or action-class suggestions; when suppress_on_sensitive_topic
is not set the pipeline still continues on to the rule pass, with the
model-derived actions absent. -/
theorem sensitivity_gate_without_suppression (env : Env) (conv : Conversation)
    (opts : ActionSuggestionOptions) (spec : TfLiteModelSpec)
    (out : ModelRawOutput) (r : ActionsSuggestionsResponse)
    (hspec : env.model.tflite_model_spec = some spec)
    (hout : env.modelInvoke conv (numMessagesOf env.model conv) = some out)
    (hreach : ReachesModelPass env conv)
    (ht : TriggeringBlockPasses spec out)
    (hs : SensitivityExceeds env.model spec out)
    (hnosup : env.model.preconditions.suppress_on_sensitive_topic = false) :
    (ReadModelOutput env.model spec out opts r).output_filtered_sensitivity = true
    ∧ (ReadModelOutput env.model spec out opts r).actions = r.actions
    ∧ GatherActionsSuggestions env conv opts initResponse =
        SuggestActionsFromRules env conv
          (SuggestActionsFromModel env conv (numMessagesOf env.model conv) opts
            (SuggestActionsFromAnnotations env conv initResponse))
    ∧ (SuggestActionsFromModel env conv (numMessagesOf env.model conv) opts
        (SuggestActionsFromAnnotations env conv initResponse)).actions =
        (SuggestActionsFromAnnotations env conv initResponse).actions := by
  have hro := readModelOutput_suppressed env.model spec out opts r ht hs
  have hm : SuggestActionsFromModel env conv (numMessagesOf env.model conv) opts
      (SuggestActionsFromAnnotations env conv initResponse) =
      ReadModelOutput env.model spec out opts
        (SuggestActionsFromAnnotations env conv initResponse) := by
    unfold SuggestActionsFromModel
    rw [hspec, hout]
  refine ⟨hro.1, hro.2, ?_, ?_⟩
  · rw [gather_reaches_model env conv opts hreach, if_neg (by rw [hnosup]; simp)]
  · rw [hm]
    exact (readModelOutput_suppressed env.model spec out opts
      (SuggestActionsFromAnnotations env conv initResponse) ht hs).2

/-- Witness for C10: without suppression the rule-derived sms action is the
only action of the gathered response, the flag is set, and no model action
was appended. -/
theorem sensitivity_gate_without_suppression_witness :
    (ReadModelOutput sensitiveNoSuppressEnv.model ⟨-1, 0, -1, -1, -1⟩
      ⟨⟨true, []⟩, ⟨true, [1]⟩, [], [], []⟩ {} initResponse).actions =
      initResponse.actions
    ∧ GatherActionsSuggestions sensitiveNoSuppressEnv oneMsgConv {} initResponse =
        SuggestActionsFromRules sensitiveNoSuppressEnv oneMsgConv
          (SuggestActionsFromModel sensitiveNoSuppressEnv oneMsgConv
            (numMessagesOf sensitiveNoSuppressEnv.model oneMsgConv) {}
            (SuggestActionsFromAnnotations sensitiveNoSuppressEnv oneMsgConv
              initResponse)) :=
  ⟨(sensitivity_gate_without_suppression sensitiveNoSuppressEnv oneMsgConv {}
      ⟨-1, 0, -1, -1, -1⟩ ⟨⟨true, []⟩, ⟨true, [1]⟩, [], [], []⟩ initResponse
      rfl rfl
      ⟨by decide, by decide, by decide, by decide, by decide⟩
      (Or.inl (by decide))
      ⟨by decide, rfl, rfl, by decide⟩
      rfl).2.1,
   (sensitivity_gate_without_suppression sensitiveNoSuppressEnv oneMsgConv {}
      ⟨-1, 0, -1, -1, -1⟩ ⟨⟨true, []⟩, ⟨true, [1]⟩, [], [], []⟩ initResponse
      rfl rfl
      ⟨by decide, by decide, by decide, by decide, by decide⟩
      (Or.inl (by decide))
      ⟨by decide, rfl, rfl, by decide⟩
      rfl).2.2.1⟩

theorem rulePassOverActions_ok (env : Env) (m : MatchData) (hasED : Bool) :
    ∀ acts : List RuleActionSpec,
      (rulePassOverActions env m hasED acts).1 = true →
      (rulePassOverActions env m hasED acts).2 =
        acts.filterMap (fun ra => ruleActionSuggestion env m ra hasED)
      ∧ (rulePassOverActions env m hasED acts).2.length = acts.length := by
  intro acts
  induction acts with
  | nil => intro _; exact ⟨rfl, rfl⟩
  | cons ra rest ih =>
    intro h
    cases hra : ruleActionSuggestion env m ra hasED with
    | none => simp [rulePassOverActions, hra] at h
    | some s =>
      have h2 : (rulePassOverActions env m hasED rest).1 = true := by
        simpa [rulePassOverActions, hra] using h
      obtain ⟨he, hl⟩ := ih h2
      constructor
      · simp [rulePassOverActions, hra, List.filterMap_cons, he]
      · simp [rulePassOverActions, hra, hl]

theorem rulePassOverMatches_ok (env : Env) (rule : Rule) (hasED : Bool) :
    ∀ ms : List MatchData,
      (rulePassOverMatches env rule hasED ms).1 = true →
      (rulePassOverMatches env rule hasED ms).2 =
        ms.flatMap (fun m => rule.actions.filterMap
          (fun ra => ruleActionSuggestion env m ra hasED))
      ∧ (rulePassOverMatches env rule hasED ms).2.length =
          ms.length * rule.actions.length := by
  intro ms
  induction ms with
  | nil => intro _; exact ⟨rfl, by simp [rulePassOverMatches]⟩
  | cons m rest ih =>
    intro h
    cases hh : (rulePassOverActions env m hasED rule.actions).1 with
    | false => simp [rulePassOverMatches, hh] at h
    | true =>
      have h2 : (rulePassOverMatches env rule hasED rest).1 = true := by
        simpa [rulePassOverMatches, hh] using h
      obtain ⟨hae, hal⟩ := rulePassOverActions_ok env m hasED rule.actions hh
      obtain ⟨he, hl⟩ := ih h2
      constructor
      · simp [rulePassOverMatches, hh, List.flatMap_cons, hae, he]
      · simp [rulePassOverMatches, hh, hal, hl, Nat.succ_mul, Nat.add_comm]

theorem rulePassOverRules_ok (env : Env) (text : String) :
    ∀ rules : List CompiledRule,
      (rulePassOverRules env text rules).1 = true →
      (rulePassOverRules env text rules).2 =
        rules.flatMap (fun cr => (cr.matchFn text).foundMatches.flatMap
          (fun m => cr.rule.actions.filterMap
            (fun ra => ruleActionSuggestion env m ra (HasEntityData cr.rule))))
      ∧ (rulePassOverRules env text rules).2.length =
          (rules.map (fun cr =>
            (cr.matchFn text).foundMatches.length * cr.rule.actions.length)).sum := by
  intro rules
  induction rules with
  | nil => intro _; exact ⟨rfl, rfl⟩
  | cons cr rest ih =>
    intro h
    cases hh : (rulePassOverMatches env cr.rule (HasEntityData cr.rule)
        (cr.matchFn text).foundMatches).1 with
    | false => simp [rulePassOverRules, hh] at h
    | true =>
      have h2 : (rulePassOverRules env text rest).1 = true := by
        simpa [rulePassOverRules, hh] using h
      obtain ⟨hme, hml⟩ := rulePassOverMatches_ok env cr.rule (HasEntityData cr.rule)
        (cr.matchFn text).foundMatches hh
      obtain ⟨he, hl⟩ := ih h2
      constructor
      · simp [rulePassOverRules, hh, List.flatMap_cons, hme, he]
      · simp [rulePassOverRules, hh, hml, hl]

/-- C6: SuggestActionsFromRules reads only the last message's text (equal
last texts give equal results); on success its appended actions are exactly
one per rule match and attached action spec, in order; and every suggestion
built for an action spec carries the spec's declared response text (empty
when none is declared), type and static score, with an empty serialized
entity payload when the rule declares no entity data. -/
theorem rules_pass_shape (env : Env) (conv conv2 : Conversation)
    (r : ActionsSuggestionsResponse)
    (hlast : lastMessageText conv = lastMessageText conv2) :
    SuggestActionsFromRules env conv r = SuggestActionsFromRules env conv2 r
    ∧ ((SuggestActionsFromRules env conv r).1 = true →
        (SuggestActionsFromRules env conv r).2.actions =
          r.actions ++ env.compiled_rules.flatMap (fun cr =>
            (cr.matchFn (lastMessageText conv)).foundMatches.flatMap (fun m =>
              cr.rule.actions.filterMap (fun ra =>
                ruleActionSuggestion env m ra (HasEntityData cr.rule))))
        ∧ (SuggestActionsFromRules env conv r).2.actions.length =
            r.actions.length + (env.compiled_rules.map (fun cr =>
              (cr.matchFn (lastMessageText conv)).foundMatches.length *
                cr.rule.actions.length)).sum)
    ∧ ∀ (m : MatchData) (ra : RuleActionSpec) (b : Bool) (s : ActionSuggestion),
        ruleActionSuggestion env m ra b = some s →
          s.response_text = (ra.action.response_text).getD ""
          ∧ s.type = ra.action.type
          ∧ s.score = ra.action.score
          ∧ (b = false → s.serialized_entity_data = "") := by
  refine ⟨?_, ?_, ?_⟩
  · unfold SuggestActionsFromRules
    rw [hlast]
  · intro h
    have h1 : (rulePassOverRules env (lastMessageText conv) env.compiled_rules).1
        = true := by
      simpa [SuggestActionsFromRules] using h
    obtain ⟨he, hl⟩ := rulePassOverRules_ok env (lastMessageText conv)
      env.compiled_rules h1
    constructor
    · simp only [SuggestActionsFromRules]
      rw [he]
    · simp only [SuggestActionsFromRules, List.length_append]
      rw [hl]
  · intro m ra b s hsome
    cases b with
    | false =>
      simp only [ruleActionSuggestion, Bool.false_eq_true, if_false,
        Option.some.injEq] at hsome
      rw [← hsome]
      exact ⟨rfl, rfl, rfl, fun _ => rfl⟩
    | true =>
      simp only [ruleActionSuggestion, if_true] at hsome
      cases hcap : (match ra.capturing_group with
        | some groups =>
          groups.foldl (fun (acc : Option ReflectiveFlatbuffer) (g : CapturingGroup) =>
            acc.bind (env.setCapturingGroup g.group_id g.entity_field m))
            (some (match ra.action.serialized_entity_data with
              | some str => env.mergeSerialized env.newRoot str
              | none => env.newRoot))
        | none => some (match ra.action.serialized_entity_data with
          | some str => env.mergeSerialized env.newRoot str
          | none => env.newRoot)) with
      | none =>
        rw [hcap] at hsome
        exact absurd hsome (by simp)
      | some ed =>
        rw [hcap] at hsome
        simp only [Option.some.injEq] at hsome
        rw [← hsome]
        refine ⟨rfl, rfl, rfl, ?_⟩
        intro hbf
        exact absurd hbf (by simp)

/-- Witness for C6: in the error-status environment the rule pass succeeds
and appends exactly the one suggestion of the single (match, action spec)
pair. -/
theorem rules_pass_shape_witness :
    (SuggestActionsFromRules errStatusEnv oneMsgConv initResponse).1 = true
    ∧ (SuggestActionsFromRules errStatusEnv oneMsgConv initResponse).2.actions =
        initResponse.actions ++ errStatusEnv.compiled_rules.flatMap (fun cr =>
          (cr.matchFn (lastMessageText oneMsgConv)).foundMatches.flatMap (fun m =>
            cr.rule.actions.filterMap (fun ra =>
              ruleActionSuggestion errStatusEnv m ra (HasEntityData cr.rule)))) :=
  ⟨by decide,
   ((rules_pass_shape errStatusEnv oneMsgConv oneMsgConv initResponse rfl).2.1
      (by decide)).1⟩

theorem dedup_keys_unique (m : List ((String × String) × Nat))
    (hpw : m.Pairwise (fun a b => a.1 ≠ b.1)) :
    ∀ e ∈ m, ∀ e2 ∈ m, e.1 = e2.1 → e = e2 := by
  intro e he e2 he2 hkey
  by_contra hne
  exact (hpw.forall (fun a b h => fun hc => h hc.symm) he he2 hne) hkey

theorem dedupStep_inv (anns : List ActionSuggestionAnnot) (i : Nat)
    (m : List ((String × String) × Nat)) (hi : i < anns.length)
    (hinv : DedupInv anns i m) :
    DedupInv anns (i + 1) (dedupStep anns m i (annGet anns i)) := by
  obtain ⟨hok, hpw, hcov⟩ := hinv
  have huniq := dedup_keys_unique m hpw
  cases hf : m.find? (fun e => decide (e.1 = dedupKey (annGet anns i))) with
  | none =>
    have hnone : ∀ e ∈ m, ¬(e.1 = dedupKey (annGet anns i)) := by
      intro e he
      have := List.find?_eq_none.mp hf e he
      simpa using this
    have hstep : dedupStep anns m i (annGet anns i) =
        m ++ [(dedupKey (annGet anns i), i)] := by
      simp [dedupStep, hf]
    rw [hstep]
    refine ⟨?_, ?_, ?_⟩
    · intro e he
      rcases List.mem_append.mp he with hm | hm
      · obtain ⟨hlen, hlt, hkey, hmax⟩ := hok e hm
        refine ⟨hlen, Nat.lt_succ_of_lt hlt, hkey, ?_⟩
        intro t ht hkt
        rcases Nat.lt_succ_iff_lt_or_eq.mp ht with ht2 | ht2
        · exact hmax t ht2 hkt
        · subst ht2
          exact absurd hkt.symm (hnone e hm)
      · rw [List.mem_singleton.mp hm]
        refine ⟨hi, Nat.lt_succ_self i, rfl, ?_⟩
        intro t ht hkt
        rcases Nat.lt_succ_iff_lt_or_eq.mp ht with ht2 | ht2
        · obtain ⟨e2, he2, hke2⟩ := hcov t ht2
          rw [hkt] at hke2
          exact absurd hke2 (hnone e2 he2)
        · subst ht2
          exact ⟨le_refl _, fun hlt2 => absurd hlt2 (lt_irrefl _)⟩
    · rw [List.pairwise_append]
      refine ⟨hpw, List.pairwise_singleton _ _, ?_⟩
      intro a2 ha2 b hb
      rw [List.mem_singleton.mp hb]
      exact hnone a2 ha2
    · intro t ht
      rcases Nat.lt_succ_iff_lt_or_eq.mp ht with ht2 | ht2
      · obtain ⟨e2, he2, hke2⟩ := hcov t ht2
        exact ⟨e2, List.mem_append_left _ he2, hke2⟩
      · subst ht2
        exact ⟨_, List.mem_append_right _ (List.mem_singleton_self _), rfl⟩
  | some e0 =>
    have he0m : e0 ∈ m := List.mem_of_find?_eq_some hf
    have he0k : e0.1 = dedupKey (annGet anns i) := by
      simpa using List.find?_some hf
    obtain ⟨hlen0, hlt0, hkey0, hmax0⟩ := hok e0 he0m
    by_cases hlt : (annGet anns e0.2).entity.score < (annGet anns i).entity.score
    · have hstep : dedupStep anns m i (annGet anns i) =
          m.map (fun e2 => if e2.1 = dedupKey (annGet anns i)
            then (e2.1, i) else e2) := by
        simp [dedupStep, hf, hlt]
      rw [hstep]
      have hfst : ∀ e2 : (String × String) × Nat,
          ((if e2.1 = dedupKey (annGet anns i) then (e2.1, i) else e2) :
            (String × String) × Nat).1 = e2.1 := by
        intro e2
        by_cases h : e2.1 = dedupKey (annGet anns i) <;> simp [h]
      refine ⟨?_, ?_, ?_⟩
      · intro e he
        obtain ⟨x, hx, hxe⟩ := List.mem_map.mp he
        by_cases hxk : x.1 = dedupKey (annGet anns i)
        · have hxe0 : x = e0 := huniq x hx e0 he0m (hxk.trans he0k.symm)
          rw [if_pos hxk] at hxe
          rw [← hxe]
          refine ⟨hi, Nat.lt_succ_self i, hxk.symm, ?_⟩
          intro t ht hkt
          rcases Nat.lt_succ_iff_lt_or_eq.mp ht with ht2 | ht2
          · have hkt0 : dedupKey (annGet anns t) = e0.1 := by
              rw [hkt, ← hxe0]
            have := hmax0 t ht2 hkt0
            exact ⟨le_of_lt (lt_of_le_of_lt this.1 hlt),
              fun _ => lt_of_le_of_lt this.1 hlt⟩
          · subst ht2
            exact ⟨le_refl _, fun hlt2 => absurd hlt2 (lt_irrefl _)⟩
        · rw [if_neg hxk] at hxe
          rw [← hxe]
          obtain ⟨hlenx, hltx, hkeyx, hmaxx⟩ := hok x hx
          refine ⟨hlenx, Nat.lt_succ_of_lt hltx, hkeyx, ?_⟩
          intro t ht hkt
          rcases Nat.lt_succ_iff_lt_or_eq.mp ht with ht2 | ht2
          · exact hmaxx t ht2 hkt
          · subst ht2
            exact absurd hkt.symm hxk
      · rw [List.pairwise_map]
        exact hpw.imp (fun {a2 b} hab => by rw [hfst a2, hfst b]; exact hab)
      · intro t ht
        rcases Nat.lt_succ_iff_lt_or_eq.mp ht with ht2 | ht2
        · obtain ⟨e2, he2, hke2⟩ := hcov t ht2
          exact ⟨_, List.mem_map_of_mem _ he2, by rw [hfst e2]; exact hke2⟩
        · subst ht2
          exact ⟨_, List.mem_map_of_mem _ he0m, by rw [hfst e0]; exact he0k⟩
    · have hstep : dedupStep anns m i (annGet anns i) = m := by
        simp [dedupStep, hf, hlt]
      rw [hstep]
      have hge : (annGet anns i).entity.score ≤ (annGet anns e0.2).entity.score :=
        not_lt.mp hlt
      refine ⟨?_, hpw, ?_⟩
      · intro e he
        obtain ⟨hlen, hlt2, hkey, hmax⟩ := hok e he
        refine ⟨hlen, Nat.lt_succ_of_lt hlt2, hkey, ?_⟩
        intro t ht hkt
        rcases Nat.lt_succ_iff_lt_or_eq.mp ht with ht2 | ht2
        · exact hmax t ht2 hkt
        · subst ht2
          have he_eq : e = e0 := huniq e he e0 he0m (hkt.symm.trans he0k.symm)
          rw [he_eq]
          exact ⟨hge, fun hcon => absurd hcon (not_lt.mpr (le_of_lt hlt0))⟩
      · intro t ht
        rcases Nat.lt_succ_iff_lt_or_eq.mp ht with ht2 | ht2
        · exact hcov t ht2
        · subst ht2
          exact ⟨e0, he0m, he0k⟩

theorem dedupMapAux_inv (anns : List ActionSuggestionAnnot) :
    ∀ (rest : List ActionSuggestionAnnot) (i : Nat)
      (m : List ((String × String) × Nat)),
      rest = anns.drop i → DedupInv anns i m →
      DedupInv anns anns.length (dedupMapAux anns i rest m) := by
  intro rest
  induction rest with
  | nil =>
    intro i m hdrop hinv
    have hle : anns.length ≤ i := by
      have := congrArg List.length hdrop
      simp only [List.length_nil, List.length_drop] at this
      omega
    obtain ⟨h1, h2, h3⟩ := hinv
    refine ⟨?_, h2, ?_⟩
    · intro e he
      obtain ⟨hlen, _, hkey, hmax⟩ := h1 e he
      exact ⟨hlen, hlen, hkey, fun t ht hkt => hmax t (lt_of_lt_of_le ht hle) hkt⟩
    · intro t ht
      exact h3 t (lt_of_lt_of_le ht hle)
  | cons a rest2 ih =>
    intro i m hdrop hinv
    have hi : i < anns.length := by
      have := congrArg List.length hdrop
      simp only [List.length_cons, List.length_drop] at this
      omega
    have hcons : anns.drop i = annGet anns i :: anns.drop (i + 1) := by
      rw [List.drop_eq_getElem_cons hi]
      congr 1
      rw [annGet, List.getD_eq_getElem anns defaultAnnot hi]
    have ha : a = annGet anns i := by
      have := hdrop.trans hcons
      exact (List.cons.injEq a rest2 _ _ ▸ this).1
    have hdrop2 : rest2 = anns.drop (i + 1) := by
      have := hdrop.trans hcons
      exact (List.cons.injEq a rest2 _ _ ▸ this).2
    rw [dedupMapAux, ha]
    exact ih (i + 1) _ hdrop2 (dedupStep_inv anns i m hi hinv)

theorem dedupMap_inv (anns : List ActionSuggestionAnnot) :
    DedupInv anns anns.length (dedupMap anns) := by
  have hbase : DedupInv anns 0 [] :=
    ⟨fun e he => absurd he (List.not_mem_nil e), List.Pairwise.nil,
     fun t ht => absurd ht (Nat.not_lt_zero t)⟩
  have := dedupMapAux_inv anns anns 0 [] (by simp) hbase
  simpa [dedupMap] using this

theorem insortKey_perm (x : (String × String) × Nat)
    (l : List ((String × String) × Nat)) : (insortKey x l).Perm (x :: l) := by
  induction l with
  | nil => exact List.Perm.refl _
  | cons y ys ih =>
    by_cases h : keyLe x y = true
    · simp [insortKey, h]
    · simp only [insortKey, h, Bool.false_eq_true, if_false]
      exact (ih.cons y).trans (List.Perm.swap x y ys)

theorem sortByKey_perm (l : List ((String × String) × Nat)) :
    (sortByKey l).Perm l := by
  induction l with
  | nil => exact List.Perm.refl _
  | cons x xs ih => exact (insortKey_perm x (sortByKey xs)).trans (ih.cons x)

theorem mem_dedup_iff (anns : List ActionSuggestionAnnot) (j : Nat) :
    j ∈ DeduplicateAnnotations anns ↔ ∃ e ∈ dedupMap anns, e.2 = j := by
  unfold DeduplicateAnnotations
  rw [List.mem_map]
  constructor
  · rintro ⟨e, he, hej⟩
    exact ⟨e, (sortByKey_perm (dedupMap anns)).mem_iff.mp he, hej⟩
  · rintro ⟨e, he, hej⟩
    exact ⟨e, (sortByKey_perm (dedupMap anns)).mem_iff.mpr he, hej⟩

/-- C5: every index selected by DeduplicateAnnotations is in range and its
annotation scores at least every same-key candidate, strictly more than any
earlier same-key candidate (so the strictly higher score wins and score ties
keep the first-seen index); every candidate's key has a selected
representative; and distinct selected indices never share a key - exactly
one representative per (collection name, matched substring) group. -/
theorem dedup_selects_highest_first (anns : List ActionSuggestionAnnot) :
    (∀ j ∈ DeduplicateAnnotations anns, j < anns.length
      ∧ ∀ t, t < anns.length →
          dedupKey (annGet anns t) = dedupKey (annGet anns j) →
          ((annGet anns t).entity.score ≤ (annGet anns j).entity.score
           ∧ (t < j → (annGet anns t).entity.score < (annGet anns j).entity.score)))
    ∧ (∀ t, t < anns.length → ∃ j ∈ DeduplicateAnnotations anns,
        dedupKey (annGet anns j) = dedupKey (annGet anns t))
    ∧ (∀ j ∈ DeduplicateAnnotations anns, ∀ j2 ∈ DeduplicateAnnotations anns,
        dedupKey (annGet anns j) = dedupKey (annGet anns j2) → j = j2) := by
  obtain ⟨hok, hpw, hcov⟩ := dedupMap_inv anns
  have huniq := dedup_keys_unique (dedupMap anns) hpw
  refine ⟨?_, ?_, ?_⟩
  · intro j hj
    obtain ⟨e, he, hej⟩ := (mem_dedup_iff anns j).mp hj
    obtain ⟨hlen, _, hkey, hmax⟩ := hok e he
    rw [hej] at hlen hkey hmax
    exact ⟨hlen, fun t ht hkt => hmax t ht (by rw [hkt, hkey])⟩
  · intro t ht
    obtain ⟨e, he, hke⟩ := hcov t ht
    obtain ⟨hlen, _, hkey, _⟩ := hok e he
    exact ⟨e.2, (mem_dedup_iff anns e.2).mpr ⟨e, he, rfl⟩, by rw [hkey, hke]⟩
  · intro j hj j2 hj2 hkj
    obtain ⟨e, he, hej⟩ := (mem_dedup_iff anns j).mp hj
    obtain ⟨e2, he2, hej2⟩ := (mem_dedup_iff anns j2).mp hj2
    obtain ⟨_, _, hkey, _⟩ := hok e he
    obtain ⟨_, _, hkey2, _⟩ := hok e2 he2
    have : e.1 = e2.1 := by
      rw [← hkey, ← hkey2, hej, hej2, hkj]
    have he_eq : e = e2 := huniq e he e2 he2 this
    rw [← hej, ← hej2, he_eq]

/-- Witness for C5: end-to-end scenario C, two same-key date/tomorrow
candidates with scores four tenths and eight tenths; exactly the index of
the higher-scored one is selected, and it is in range by the theorem. -/
theorem dedup_selects_highest_first_witness :
    DeduplicateAnnotations scenarioAnnots = [1]
    ∧ (1 ∈ DeduplicateAnnotations scenarioAnnots → 1 < scenarioAnnots.length) :=
  ⟨by decide, fun h => ((dedup_selects_highest_first scenarioAnnots).1 1 h).1⟩

end libtextclassifier3
